import Mathlib

set_option maxRecDepth 10000

/-!
Verification of the kid package (K-sortable ID generator, kid.go).

The development shallowly embeds the core of kid.go:

* `ID` — the 10-byte identifier value (`type ID [10]byte`), bytes as `Nat`
  with an explicit `< 256` validity predicate;
* the custom base-32 alphabet, the decoding table `dec`, `encode`, `decode`,
  `ID.unmarshalText`, `fromString`;
* `ID.compare` and the in-place `Sort` (via Go's standard-library sort);
* `getTSStep` — one mutex-protected step of the monotonic timestamp+sequence
  generator `getTS`, with `int64` arithmetic modelled on `Int`
  (no operation in the reachable range overflows 64 bits).

Go `byte` arithmetic is `Nat` arithmetic with an explicit `% 256` after every
left shift (Go truncates each `uint8` operation to 8 bits); `x & 0x1F` is
written `x &&& 31` and `x >> k` is `x >>> k`, exactly mirroring each source
expression.
-/

/-- Embeds `type ID [rawLen]byte` (kid.go line 59) with `rawLen = 10`:
byte `id[i]` of the Go array is field `bi`. -/
structure ID where
  b0 : Nat
  b1 : Nat
  b2 : Nat
  b3 : Nat
  b4 : Nat
  b5 : Nat
  b6 : Nat
  b7 : Nat
  b8 : Nat
  b9 : Nat
deriving DecidableEq, Repr

/-- The Go slice `id[:]` as a list of bytes. -/
def idBytes (id : ID) : List Nat :=
  [id.b0, id.b1, id.b2, id.b3, id.b4, id.b5, id.b6, id.b7, id.b8, id.b9]

/-- The Go slice `id[:8]` (timestamp + sequence prefix used by `Compare`). -/
def first8 (id : ID) : List Nat :=
  [id.b0, id.b1, id.b2, id.b3, id.b4, id.b5, id.b6, id.b7]

/-- Every field is a byte value. Go's `[10]byte` guarantees this; the `Nat`
embedding states it explicitly. -/
def ID.Valid (id : ID) : Prop :=
  id.b0 < 256 ∧ id.b1 < 256 ∧ id.b2 < 256 ∧ id.b3 < 256 ∧ id.b4 < 256 ∧
  id.b5 < 256 ∧ id.b6 < 256 ∧ id.b7 < 256 ∧ id.b8 < 256 ∧ id.b9 < 256

instance (id : ID) : Decidable id.Valid := by
  unfold ID.Valid; infer_instance

/-- Embeds `var nilID ID` (kid.go line 69): the zero value of `ID`. -/
def nilID : ID := ⟨0, 0, 0, 0, 0, 0, 0, 0, 0, 0⟩

/-- Embeds `func (id ID) IsNil() bool { return id == nilID }` (kid.go 116). -/
def ID.isNil (id : ID) : Bool := id == nilID

/-- Embeds the constant `encoding = "0123456789bcdefghjklmnpqrstvwxyz"`
(kid.go line 64): base32 alphabet without the vowels a, i, o, u. -/
def encoding : String := "0123456789bcdefghjklmnpqrstvwxyz"

/-- The alphabet as a list of byte values (Go indexes the string's bytes;
every character is ASCII, so byte = code point). -/
def encList : List Nat := encoding.toList.map Char.toNat

/-- Byte `encoding[i]` of the alphabet string. All indices used by `encode`
and `decode` are `< 32`, so the default is never taken. -/
def encAt (i : Nat) : Nat := encList.getD i 0

/-- Embeds the decoding table `dec` built by `init()` (kid.go 76-84):
`dec[c]` is the position of byte `c` in `encoding`, or `maxByte = 0xFF`
for bytes outside the alphabet. -/
def dec (c : Nat) : Nat :=
  match encList.findIdx? (· == c) with
  | some i => i
  | none => 255

/-- The sixteen 5-bit alphabet indices computed by `encode` (kid.go 155-175),
in output order `dst[0], …, dst[15]`.  Each entry transcribes the index
expression of the corresponding `dst[j] = encoding[…]` assignment, with Go's
`uint8` left shifts written `(x <<< k) % 256`. -/
def encodeIdx (id : ID) : List Nat :=
  [ id.b0 >>> 3,                                              -- dst[0]
    ((id.b1 >>> 6) &&& 31) ||| (((id.b0 <<< 2) % 256) &&& 31), -- dst[1]
    (id.b1 >>> 1) &&& 31,                                     -- dst[2]
    ((id.b2 >>> 4) &&& 31) ||| (((id.b1 <<< 4) % 256) &&& 31), -- dst[3]
    (id.b3 >>> 7) ||| (((id.b2 <<< 1) % 256) &&& 31),          -- dst[4]
    (id.b3 >>> 2) &&& 31,                                     -- dst[5]
    (id.b4 >>> 5) ||| (((id.b3 <<< 3) % 256) &&& 31),          -- dst[6]
    id.b4 &&& 31,                                             -- dst[7]
    id.b5 >>> 3,                                              -- dst[8]
    ((id.b6 >>> 6) &&& 31) ||| (((id.b5 <<< 2) % 256) &&& 31), -- dst[9]
    (id.b6 >>> 1) &&& 31,                                     -- dst[10]
    ((id.b7 >>> 4) &&& 31) ||| (((id.b6 <<< 4) % 256) &&& 31), -- dst[11]
    (id.b8 >>> 7) ||| (((id.b7 <<< 1) % 256) &&& 31),          -- dst[12]
    (id.b8 >>> 2) &&& 31,                                     -- dst[13]
    (id.b9 >>> 5) ||| (((id.b8 <<< 3) % 256) &&& 31),          -- dst[14]
    id.b9 &&& 31 ]                                            -- dst[15]

/-- Embeds `func encode(dst, id []byte)` (kid.go 155-175): the 16 output
bytes `dst[0..15]`, each an alphabet lookup of the matching 5-bit index. -/
def encode (id : ID) : List Nat := (encodeIdx id).map encAt

/-- `ID.String()` (kid.go 134-138): the encoded bytes as a string. -/
def encodeString (id : ID) : String :=
  String.mk ((encode id).map Char.ofNat)

/-- Embeds `func decode(id *ID, src []byte) bool` (kid.go 218-237).
`src` is the 16-byte candidate (only ever called with length 16); the Go
function fills `id` and returns `false` if the re-encode self-check on the
last byte fails, which here is `none`.  Each byte transcribes the matching
`id[j] = dec[src[…]]<<… | …` line, with `uint8` shifts truncated `% 256`. -/
def decode (src : List Nat) : Option ID :=
  let v : Nat → Nat := fun j => dec (src.getD j 0)
  let d9 := ((v 14 <<< 5) % 256) ||| v 15
  -- check the last byte: `if encoding[id[9]&0x1F] != src[15] { return false }`
  if encAt (d9 &&& 31) ≠ src.getD 15 0 then
    none
  else
    some
      { b9 := d9
        b8 := ((v 12 <<< 7) % 256) ||| ((v 13 <<< 2) % 256) ||| (v 14 >>> 3)
        b7 := ((v 11 <<< 4) % 256) ||| (v 12 >>> 1)
        b6 := ((v 9 <<< 6) % 256) ||| ((v 10 <<< 1) % 256) ||| (v 11 >>> 4)
        b5 := ((v 8 <<< 3) % 256) ||| (v 9 >>> 2)
        b4 := ((v 6 <<< 5) % 256) ||| v 7
        b3 := ((v 4 <<< 7) % 256) ||| ((v 5 <<< 2) % 256) ||| (v 6 >>> 3)
        b2 := ((v 3 <<< 4) % 256) ||| (v 4 >>> 1)
        b1 := ((v 1 <<< 6) % 256) ||| ((v 2 <<< 1) % 256) ||| (v 3 >>> 4)
        b0 := ((v 0 <<< 3) % 256) ||| (v 1 >>> 2) }

/-- Embeds `func (id *ID) UnmarshalText(text []byte) error` (kid.go 200-215).
`id0` is the receiver's value before the call; the result pairs the
receiver's value after the call with `true` when `ErrInvalidID` is
returned.  Mirrors the three checks in source order: length, per-byte
alphabet membership (`dec[c] == maxByte`), and the `decode` self-check
(on whose failure the receiver is reset to `nilID`). -/
def ID.unmarshalText (id0 : ID) (text : List Nat) : ID × Bool :=
  if text.length ≠ 16 then (id0, true)
  else if text.any (fun c => dec c == 255) then (id0, true)
  else
    match decode text with
    | some id => (id, false)
    | none => (nilID, true)

/-- Embeds `func FromString(str string) (ID, error)` (kid.go 189-193):
starts from a zero receiver (`id := &ID{}`) and unmarshals. -/
def fromString (text : List Nat) : ID × Bool :=
  ID.unmarshalText nilID text

/-- Embeds `bytes.Compare` on byte slices: lexicographic comparison
returning -1, 0 or 1. -/
def bytesCompare : List Nat → List Nat → Int
  | [], [] => 0
  | [], _ :: _ => -1
  | _ :: _, [] => 1
  | x :: xs, y :: ys =>
    if x < y then -1 else if y < x then 1 else bytesCompare xs ys

/-- Embeds `func (id ID) Compare(other ID) int` (kid.go 336-338):
`bytes.Compare(id[:8], other[:8])` — only the first 8 bytes
(timestamp + sequence) are compared. -/
def ID.compare (id other : ID) : Int :=
  bytesCompare (first8 id) (first8 other)

/-- Value of a big-endian digit list. -/
def beVal (base : Nat) : List Nat → Nat
  | [] => 0
  | d :: ds => d * base ^ ds.length + beVal base ds

/-! ### The monotonic timestamp-sequence generator (getTS, kid.go 381-399)

`int64` arithmetic is modelled on `Int`: Go's `/` on int64 truncates toward
zero (`Int.tdiv`); the arithmetic right shift `>> k` is floor division, which
for the positive divisor `2^k` is `Int` division `/` (Euclidean = floor
here); `& 0xfff` of an int64 is its nonnegative remainder `% 4096`;
`milli << 12` is `milli * 4096`.  No reachable value approaches the int64
overflow bound. -/

/-- Embeds one locked step of `getTS`: given the stored `lastTime` and the
current clock reading `nano`, returns `(milli, seq, newLastTime)`. -/
def getTSStep (lastTime nano : Int) : Int × Int × Int :=
  let milli := Int.tdiv nano 1000000
  let seq := (nano - milli * 1000000) / 256
  let now := milli * 4096 + seq
  if now ≤ lastTime then
    ((lastTime + 1) / 4096, (lastTime + 1) % 4096, lastTime + 1)
  else
    (milli, seq, now)

/-- A run of the generator from a stored state over a list of clock
readings: the returned `(milli, seq)` pairs, with the state threaded through
(`lastTime` starts at 0 at process start, kid.go 362-370). -/
def runTS (lastTime : Int) : List Int → List (Int × Int)
  | [] => []
  | nano :: rest =>
    ((getTSStep lastTime nano).1, (getTSStep lastTime nano).2.1) ::
      runTS (getTSStep lastTime nano).2.2 rest


/-! ### The in-place Sort (kid.go 340-357) and Go's library sort

`Sort(ids []ID)` (kid.go 355-357) wraps the slice in `sorter` and calls the
standard library's `sort.Sort`, whose comparisons all go through
`sorter.Less(i, j) = s[i].Compare(s[j]) < 0` (kid.go 346-348).  `sort.Sort`
(Go ≥ 1.19, sort/sort.go and sort/zsortinterface.go) runs `pdqsort` — a
pattern-defeating quicksort that is documented as not stable.  The functions
below transcribe that implementation: the slice is an `Array ID`, each Go
loop is a fueled recursion whose fuel bounds its iteration count (every fuel
value used below exceeds the loop's iteration bound, so the models compute
the same results as the loops), and `data.Swap`/`data.Less` are `aswap` and
`sorterLess`. -/

instance : Inhabited ID := ⟨nilID⟩

/-- Embeds `sorter.Less(i, j)` (kid.go 346-348). -/
def sorterLess (xs : Array ID) (i j : Nat) : Bool :=
  decide (ID.compare (xs.get! i) (xs.get! j) < 0)

/-- Embeds `sorter.Swap(i, j)` (kid.go 350-352). -/
def aswap (xs : Array ID) (i j : Nat) : Array ID :=
  (xs.set! i (xs.get! j)).set! j (xs.get! i)

/-- The inner loop of `insertionSort(data, a, b)`:
`for j := i; j > a && data.Less(j, j-1); j--` bubbles the new element left
past strictly-greater neighbours.  Here the already-processed prefix is
carried as a list in reversed order (nearest neighbour first), so one Go
swap-and-continue step is one comparison against the head. -/
def bubbleIns (x : ID) : List ID → List ID
  | [] => [x]
  | y :: rest =>
    if ID.compare x y < 0 then y :: bubbleIns x rest else x :: y :: rest

/-- The outer loop of `insertionSort(data, a, b)` over the segment contents:
each element in turn is bubbled into the (reversed) processed prefix. -/
def insertionList (l : List ID) : List ID :=
  (l.foldl (fun acc x => bubbleIns x acc) []).reverse

/-- The contents of the slice segment `[a, b)`. -/
def segExtract (xs : Array ID) (a b : Nat) : List ID :=
  ((xs.toList).drop a).take (b - a)

/-- Replace the slice segment `[a, b)` with new contents. -/
def segReplace (xs : Array ID) (a b : Nat) (seg : List ID) : Array ID :=
  ((xs.toList).take a ++ seg ++ (xs.toList).drop b).toArray

/-- Embeds `insertionSort(data, a, b)`: its in-place neighbour-swap loops
rearrange exactly the segment `[a, b)` as `insertionList` does. -/
def insertionSortSeg (xs : Array ID) (a b : Nat) : Array ID :=
  segReplace xs a b (insertionList (segExtract xs a b))

/-- Embeds `siftDown(data, lo=root, hi, first)`; the root index strictly
grows each iteration, so fuel `hi` covers the loop. -/
def siftDownGo (first hi : Nat) : Nat → Nat → Array ID → Array ID
  | 0, _, xs => xs
  | fuel + 1, root, xs =>
    let child := 2 * root + 1
    if child ≥ hi then xs
    else
      let child :=
        if child + 1 < hi ∧ sorterLess xs (first + child) (first + child + 1)
        then child + 1 else child
      if ¬ sorterLess xs (first + root) (first + child) then xs
      else siftDownGo first hi fuel child (aswap xs (first + root) (first + child))

/-- First loop of `heapSort`: `for i := (hi-1)/2; i >= 0; i--`. -/
def heapBuild (first hi : Nat) : Nat → Array ID → Array ID
  | 0, xs => siftDownGo first hi hi 0 xs
  | i + 1, xs => heapBuild first hi i (siftDownGo first hi hi (i + 1) xs)

/-- Second loop of `heapSort`: `for i := hi-1; i >= 0; i--` (the `i = 0`
iteration swaps an index with itself and sifts an empty heap: a no-op). -/
def heapPop (first : Nat) : Nat → Array ID → Array ID
  | 0, xs => xs
  | i + 1, xs =>
    heapPop first i
      (siftDownGo first (i + 1) (i + 1) 0 (aswap xs first (first + i + 1)))

/-- Embeds `heapSort(data, a, b)`. -/
def heapSortGo (xs : Array ID) (a b : Nat) : Array ID :=
  let hi := b - a
  if hi = 0 then xs
  else heapPop a (hi - 1) (heapBuild a hi ((hi - 1) / 2) xs)

/-- Embeds `reverseRange(data, a, b)`. -/
def reverseRangeGo (xs : Array ID) (a b : Nat) : Array ID :=
  segReplace xs a b (segExtract xs a b).reverse

/-- Embeds `xorshift.Next()` (sort package PRNG) on uint64, as `Nat` with
explicit `% 2^64`. -/
def xorshiftNext (r : Nat) : Nat :=
  let r := (r ^^^ (r <<< 13)) % (2 ^ 64)
  let r := (r ^^^ (r >>> 7)) % (2 ^ 64)
  (r ^^^ (r <<< 17)) % (2 ^ 64)

/-- Embeds `bits.Len` on uint. -/
def bitsLen (n : Nat) : Nat := if n = 0 then 0 else Nat.log2 n + 1

/-- Embeds `nextPowerOfTwo(length)` from the sort package. -/
def nextPowerOfTwo (length : Nat) : Nat := 1 <<< bitsLen length

/-- Embeds `breakPatterns(data, a, b)`: three pseudo-random swaps, the
`for i := 0; i < 3; i++` loop unrolled with the PRNG state threaded. -/
def breakPatternsGo (xs : Array ID) (a b : Nat) : Array ID :=
  let length := b - a
  if length ≥ 8 then
    let modulus := nextPowerOfTwo length
    let idx := a + (length / 4) * 2 - 1
    let r0 := xorshiftNext length
    let o0 := r0 &&& (modulus - 1)
    let o0 := if o0 ≥ length then o0 - length else o0
    let xs := aswap xs (idx - 1) (a + o0)
    let r1 := xorshiftNext r0
    let o1 := r1 &&& (modulus - 1)
    let o1 := if o1 ≥ length then o1 - length else o1
    let xs := aswap xs idx (a + o1)
    let r2 := xorshiftNext r1
    let o2 := r2 &&& (modulus - 1)
    let o2 := if o2 ≥ length then o2 - length else o2
    aswap xs (idx + 1) (a + o2)
  else xs

/-- Embeds `order2(data, a, b, &swaps)`. -/
def order2Go (xs : Array ID) (a b swaps : Nat) : Nat × Nat × Nat :=
  if sorterLess xs b a then (b, a, swaps + 1) else (a, b, swaps)

/-- Embeds `median(data, a, b, c, &swaps)`. -/
def medianGo (xs : Array ID) (a b c swaps : Nat) : Nat × Nat :=
  let (a, b, swaps) := order2Go xs a b swaps
  let (b, _c, swaps) := order2Go xs b c swaps
  let (_a, b, swaps) := order2Go xs a b swaps
  (b, swaps)

/-- Embeds `medianAdjacent(data, a, &swaps)`. -/
def medianAdjacentGo (xs : Array ID) (a swaps : Nat) : Nat × Nat :=
  medianGo xs (a - 1) a (a + 1) swaps

/-- Embeds `choosePivot(data, a, b)`; the hint is 0 = unknown,
1 = increasing, 2 = decreasing (`maxSwaps = 12`, `shortestNinther = 50`). -/
def choosePivotGo (xs : Array ID) (a b : Nat) : Nat × Nat :=
  let l := b - a
  let i := a + l / 4 * 1
  let j := a + l / 4 * 2
  let k := a + l / 4 * 3
  if l ≥ 8 then
    if l ≥ 50 then
      let (i, s1) := medianAdjacentGo xs i 0
      let (j, s2) := medianAdjacentGo xs j s1
      let (k, s3) := medianAdjacentGo xs k s2
      let (j, swaps) := medianGo xs i j k s3
      if swaps = 0 then (j, 1) else if swaps = 12 then (j, 2) else (j, 0)
    else
      let (j, swaps) := medianGo xs i j k 0
      if swaps = 0 then (j, 1) else if swaps = 12 then (j, 2) else (j, 0)
  else
    (j, 1)

/-- Left-shifting loop of `partialInsertionSort`:
`for j := i-1; j >= 1; j--`. -/
def partialShiftLeft (xs : Array ID) : Nat → Array ID
  | 0 => xs
  | j + 1 =>
    if ¬ sorterLess xs (j + 1) j then xs
    else partialShiftLeft (aswap xs (j + 1) j) j

/-- Right-shifting loop of `partialInsertionSort`:
`for j := i+1; j < b; j++`. -/
def partialShiftRight (xs : Array ID) (b : Nat) : Nat → Nat → Array ID
  | 0, _ => xs
  | fuel + 1, j =>
    if j < b then
      if ¬ sorterLess xs j (j - 1) then xs
      else partialShiftRight (aswap xs j (j - 1)) b fuel (j + 1)
    else xs

/-- Scanning loop of `partialInsertionSort`:
`for i < b && !data.Less(i, i-1) { i++ }`. -/
def partialScan (xs : Array ID) (b : Nat) : Nat → Nat → Nat
  | 0, i => i
  | fuel + 1, i =>
    if i < b ∧ ¬ sorterLess xs i (i - 1) then partialScan xs b fuel (i + 1) else i

/-- The `maxSteps = 5` outer loop of `partialInsertionSort(data, a, b)`
(`shortestShifting = 50`). -/
def partialInsLoop (a b : Nat) : Nat → Nat → Array ID → Array ID × Bool
  | 0, _, xs => (xs, false)
  | steps + 1, i, xs =>
    let i := partialScan xs b b i
    if i = b then (xs, true)
    else if b - a < 50 then (xs, false)
    else
      let xs := aswap xs i (i - 1)
      let xs := if i - a ≥ 2 then partialShiftLeft xs (i - 1) else xs
      let xs := if b - i ≥ 2 then partialShiftRight xs b b (i + 1) else xs
      partialInsLoop a b steps i xs

/-- Embeds `partialInsertionSort(data, a, b)`: result and the did-sort flag. -/
def partialInsertionSortGo (xs : Array ID) (a b : Nat) : Array ID × Bool :=
  partialInsLoop a b 5 (a + 1) xs

/-- Scan of `partition`: `for i <= j && data.Less(i, a) { i++ }`. -/
def scanI (xs : Array ID) (a j : Nat) : Nat → Nat → Nat
  | 0, i => i
  | fuel + 1, i =>
    if i ≤ j ∧ sorterLess xs i a then scanI xs a j fuel (i + 1) else i

/-- Scan of `partition`: `for i <= j && !data.Less(j, a) { j-- }`. -/
def scanJ (xs : Array ID) (a i : Nat) : Nat → Nat → Nat
  | 0, j => j
  | fuel + 1, j =>
    if i ≤ j ∧ ¬ sorterLess xs j a then scanJ xs a i fuel (j - 1) else j

/-- Main loop of `partition`: each pass narrows `j - i` by at least two, so
fuel `b` covers it. -/
def partitionLoop (a b : Nat) : Nat → Nat → Nat → Array ID → Array ID × Nat
  | 0, _, j, xs => (xs, j)
  | fuel + 1, i, j, xs =>
    let i := scanI xs a j b i
    let j := scanJ xs a i b j
    if i > j then (xs, j)
    else partitionLoop a b fuel (i + 1) (j - 1) (aswap xs i j)

/-- Embeds `partition(data, a, b, pivot) (newpivot, alreadyPartitioned)`. -/
def partitionGo (xs : Array ID) (a b pivot : Nat) : Array ID × Nat × Bool :=
  let xs := aswap xs a pivot
  let i := a + 1
  let j := b - 1
  let i := scanI xs a j b i
  let j := scanJ xs a i b j
  if i > j then (aswap xs j a, j, true)
  else
    let xs := aswap xs i j
    let (xs, j) := partitionLoop a b b (i + 1) (j - 1) xs
    (aswap xs j a, j, false)

/-- Scan of `partitionEqual`: `for i <= j && !data.Less(a, i) { i++ }`. -/
def scanIEq (xs : Array ID) (a j : Nat) : Nat → Nat → Nat
  | 0, i => i
  | fuel + 1, i =>
    if i ≤ j ∧ ¬ sorterLess xs a i then scanIEq xs a j fuel (i + 1) else i

/-- Scan of `partitionEqual`: `for i <= j && data.Less(a, j) { j-- }`. -/
def scanJEq (xs : Array ID) (a i : Nat) : Nat → Nat → Nat
  | 0, j => j
  | fuel + 1, j =>
    if i ≤ j ∧ sorterLess xs a j then scanJEq xs a i fuel (j - 1) else j

/-- Main loop of `partitionEqual`. -/
def partitionEqLoop (a b : Nat) : Nat → Nat → Nat → Array ID → Array ID × Nat
  | 0, i, _, xs => (xs, i)
  | fuel + 1, i, j, xs =>
    let i := scanIEq xs a j b i
    let j := scanJEq xs a i b j
    if i > j then (xs, i)
    else partitionEqLoop a b fuel (i + 1) (j - 1) (aswap xs i j)

/-- Embeds `partitionEqual(data, a, b, pivot)`. -/
def partitionEqualGo (xs : Array ID) (a b pivot : Nat) : Array ID × Nat :=
  let xs := aswap xs a pivot
  partitionEqLoop a b b (a + 1) (b - 1) xs

/-- Embeds the `pdqsort(data, a, b, limit)` driver.  Its `for` loop carries
the call-local flags `wasBalanced`/`wasPartitioned` (reset to `true` on each
recursive call); `maxInsertion = 12`. -/
def pdqLoop : Nat → Array ID → Nat → Nat → Nat → Bool → Bool → Array ID
  | 0, xs, _, _, _, _, _ => xs
  | fuel + 1, xs, a, b, limit, wasBalanced, wasPartitioned =>
    let length := b - a
    if length ≤ 12 then insertionSortSeg xs a b
    else if limit = 0 then heapSortGo xs a b
    else
      let xs := if ¬ wasBalanced then breakPatternsGo xs a b else xs
      let limit := if ¬ wasBalanced then limit - 1 else limit
      let (pivot, hint) := choosePivotGo xs a b
      let xs := if hint = 2 then reverseRangeGo xs a b else xs
      let pivot := if hint = 2 then (b - 1) - (pivot - a) else pivot
      let hint := if hint = 2 then 1 else hint
      let (xs, wasSorted) :=
        if wasBalanced ∧ wasPartitioned ∧ hint = 1 then
          partialInsertionSortGo xs a b
        else (xs, false)
      if wasSorted then xs
      else if 0 < a ∧ ¬ sorterLess xs (a - 1) pivot then
        let (xs, mid) := partitionEqualGo xs a b pivot
        pdqLoop fuel xs mid b limit wasBalanced wasPartitioned
      else
        let (xs, mid, alreadyPartitioned) := partitionGo xs a b pivot
        let wasPartitioned := alreadyPartitioned
        let leftLen := mid - a
        let rightLen := b - mid
        let balanceThreshold := length / 8
        let wasBalanced := min leftLen rightLen ≥ balanceThreshold
        if leftLen < rightLen then
          let xs := pdqLoop fuel xs a mid limit true true
          pdqLoop fuel xs (mid + 1) b limit wasBalanced wasPartitioned
        else
          let xs := pdqLoop fuel xs (mid + 1) b limit true true
          pdqLoop fuel xs a mid limit wasBalanced wasPartitioned

/-- Entry to `pdqsort(data, a, b, limit)` with fresh flags. -/
def pdqsortGo (fuel : Nat) (xs : Array ID) (a b limit : Nat) : Array ID :=
  pdqLoop fuel xs a b limit true true

/-- Embeds `Sort(ids []ID)` (kid.go 355-357) composed with `sort.Sort`:
no-op for `n <= 1`, otherwise `pdqsort(data, 0, n, bits.Len(uint(n)))`.
The fuel `(n+2)^2` strictly exceeds the loop/recursion depth the driver can
reach on `n` elements. -/
def sortIDs (l : List ID) : List ID :=
  let n := l.length
  if n ≤ 1 then l
  else (pdqsortGo ((n + 2) * (n + 2)) l.toArray 0 n (bitsLen n)).toList

/-- Membership in the equal-compare class of `y`: the relation whose
preserved order is the stability of a sort over `Compare`. -/
def compareEq (z y : ID) : Bool := ID.compare z y == 0

/-- An identifier with the given timestamp+sequence key byte (`id[7]`) and
random tag byte (`id[9]`); `Compare` reads the key and ignores the tag. -/
def tagged (key tag : Nat) : ID := ⟨0, 0, 0, 0, 0, 0, 0, key, 0, tag⟩


/-! ### Alphabet facts (all by finite check) -/

/-- Decoding inverts alphabet lookup on 5-bit values. -/
theorem dec_encAt : ∀ v < 32, dec (encAt v) = v := by decide

/-- Alphabet bytes are bytes. -/
theorem encAt_lt_256 : ∀ v < 32, encAt v < 256 := by decide

/-- Alphabet symbols appear in strictly increasing byte order: lookup is
strictly monotone on 5-bit values (the ordering-preservation requirement). -/
theorem encAt_strictMono : ∀ v < 32, ∀ w < 32, (encAt v < encAt w ↔ v < w) := by
  decide

/-- A byte either decodes to a 5-bit value or to the sentinel 255. -/
theorem dec_lt_or_eq (c : Nat) : dec c < 32 ∨ dec c = 255 := by
  unfold dec
  rcases h : encList.findIdx? (· == c) with _ | i
  · exact Or.inr rfl
  · left
    have hi := (List.findIdx?_eq_some_iff_findIdx_eq.mp h).1
    have hlen : encList.length = 32 := by decide
    show i < 32
    omega

/-- A byte that decodes (is not the 255 sentinel) is a member of the
alphabet. -/
theorem mem_encList_of_dec_ne (c : Nat) (h : dec c ≠ 255) : c ∈ encList := by
  by_contra hc
  apply h
  unfold dec
  have hnone : encList.findIdx? (· == c) = none :=
    List.findIdx?_eq_none_iff.mpr (by
      intro x hx
      simp only [beq_eq_false_iff_ne, ne_eq]
      exact fun hxc => hc (hxc ▸ hx))
  rw [hnone]

/-- A byte that decodes (is not the 255 sentinel) decodes to a 5-bit value and
re-encodes to itself. -/
theorem encAt_dec (c : Nat) (h : dec c ≠ 255) : dec c < 32 ∧ encAt (dec c) = c := by
  have hmem := mem_encList_of_dec_ne c h
  have hl : encList = [48, 49, 50, 51, 52, 53, 54, 55, 56, 57, 98, 99, 100, 101,
      102, 103, 104, 106, 107, 108, 109, 110, 112, 113, 114, 115, 116, 118,
      119, 120, 121, 122] := by decide
  rw [hl] at hmem
  simp only [List.mem_cons, List.not_mem_nil, or_false] at hmem
  rcases hmem with rfl | rfl | rfl | rfl | rfl | rfl | rfl | rfl | rfl | rfl |
    rfl | rfl | rfl | rfl | rfl | rfl | rfl | rfl | rfl | rfl | rfl | rfl |
    rfl | rfl | rfl | rfl | rfl | rfl | rfl | rfl | rfl | rfl <;> decide

/-! ### Byte-level bit identities (finite checks over the byte range)

Each lemma converts one Go shift/mask expression into its division/remainder
form, so that the 80-bit value identities below become linear arithmetic. -/

theorem shr3_eq : ∀ a < 256, a >>> 3 = a / 8 := by decide

theorem shr5_eq : ∀ a < 256, a >>> 5 = a / 32 := by decide

theorem shr7_eq : ∀ a < 256, a >>> 7 = a / 128 := by decide

theorem shr6_and_eq : ∀ a < 256, (a >>> 6) &&& 31 = a / 64 := by decide

theorem shr4_and_eq : ∀ a < 256, (a >>> 4) &&& 31 = a / 16 := by decide

theorem shr1_and_eq : ∀ a < 256, (a >>> 1) &&& 31 = a / 2 % 32 := by decide

theorem shr2_and_eq : ∀ a < 256, (a >>> 2) &&& 31 = a / 4 % 32 := by decide

theorem and31_eq : ∀ a < 256, a &&& 31 = a % 32 := by decide

theorem shl1_and_eq : ∀ a < 256, ((a <<< 1) % 256) &&& 31 = a % 16 * 2 := by decide

theorem shl2_and_eq : ∀ a < 256, ((a <<< 2) % 256) &&& 31 = a % 8 * 4 := by decide

theorem shl3_and_eq : ∀ a < 256, ((a <<< 3) % 256) &&& 31 = a % 4 * 8 := by decide

theorem shl4_and_eq : ∀ a < 256, ((a <<< 4) % 256) &&& 31 = a % 2 * 16 := by decide

/-! Bitwise-or of operands with disjoint bit ranges is addition. -/

theorem lor4_eq : ∀ x < 4, ∀ m < 8, x ||| m * 4 = x + m * 4 := by decide

theorem lor16_eq : ∀ x < 16, ∀ m < 2, x ||| m * 16 = x + m * 16 := by decide

theorem lor2_eq : ∀ x < 2, ∀ m < 16, x ||| m * 2 = x + m * 2 := by decide

theorem lor8_eq : ∀ x < 8, ∀ m < 4, x ||| m * 8 = x + m * 8 := by decide

/-! ### 5-bit-value identities for the decode direction (values `< 32`) -/

theorem vshl5_eq : ∀ v < 32, (v <<< 5) % 256 = v % 8 * 32 := by decide

theorem vshl7_eq : ∀ v < 32, (v <<< 7) % 256 = v % 2 * 128 := by decide

theorem vshl6_eq : ∀ v < 32, (v <<< 6) % 256 = v % 4 * 64 := by decide

theorem vshl4_eq : ∀ v < 32, (v <<< 4) % 256 = v % 16 * 16 := by decide

theorem vshl1_eq : ∀ v < 32, (v <<< 1) % 256 = v * 2 := by decide

theorem vshl2_eq : ∀ v < 32, (v <<< 2) % 256 = v * 4 := by decide

theorem vshl3_eq : ∀ v < 32, (v <<< 3) % 256 = v * 8 := by decide

theorem vshr1_eq : ∀ v < 32, v >>> 1 = v / 2 := by decide

theorem vshr2_eq : ∀ v < 32, v >>> 2 = v / 4 := by decide

theorem vshr3_eq : ∀ v < 32, v >>> 3 = v / 8 := by decide

theorem vshr4_eq : ∀ v < 32, v >>> 4 = v / 16 := by decide

theorem lor32_eq : ∀ m < 8, ∀ w < 32, m * 32 ||| w = m * 32 + w := by decide

theorem lor128a_eq : ∀ m < 2, ∀ v < 32, m * 128 ||| v * 4 = m * 128 + v * 4 := by
  decide

theorem lor128b_eq : ∀ m < 2, ∀ v < 32, ∀ y < 4,
    m * 128 + v * 4 ||| y = m * 128 + v * 4 + y := by decide

theorem lor16b_eq : ∀ m < 16, ∀ y < 16, m * 16 ||| y = m * 16 + y := by decide

theorem lor64a_eq : ∀ m < 4, ∀ w < 32, m * 64 ||| w * 2 = m * 64 + w * 2 := by
  decide

theorem lor64b_eq : ∀ m < 4, ∀ w < 32, ∀ y < 2,
    m * 64 + w * 2 ||| y = m * 64 + w * 2 + y := by decide

theorem lor8b_eq : ∀ v < 32, ∀ y < 8, v * 8 ||| y = v * 8 + y := by decide

/-! ### Big-endian digit values

`beVal base l` reads a digit list as a base-`base` numeral; both the 10-byte
value (base 256) and the 16-symbol index string (base 32) denote the same
80-bit number, which drives the round-trip and ordering proofs. -/


theorem beVal_lt (base : Nat) (_hb : 0 < base) :
    ∀ l : List Nat, (∀ d ∈ l, d < base) → beVal base l < base ^ l.length := by
  intro l
  induction l with
  | nil => intro _; simp [beVal]
  | cons d ds ih =>
    intro h
    have hd : d < base := h d (by simp)
    have hds := ih fun x hx => h x (by simp [hx])
    simp only [beVal, List.length_cons]
    calc d * base ^ ds.length + beVal base ds
        < d * base ^ ds.length + base ^ ds.length := by omega
      _ = (d + 1) * base ^ ds.length := by ring
      _ ≤ base * base ^ ds.length := Nat.mul_le_mul_right _ (by omega)
      _ = base ^ (ds.length + 1) := by ring

/-- A digit-weighted sum with a smaller leading digit is smaller. -/
theorem digit_lt (P d1 d2 v1 : Nat) (h1 : v1 < P) (hd : d1 < d2) :
    d1 * P + v1 < d2 * P :=
  calc d1 * P + v1 < d1 * P + P := by omega
    _ = (d1 + 1) * P := by ring
    _ ≤ d2 * P := Nat.mul_le_mul_right _ (by omega)

/-- Splitting a digit-weighted sum is injective. -/
theorem digit_split (P d1 d2 v1 v2 : Nat) (h1 : v1 < P) (h2 : v2 < P)
    (he : d1 * P + v1 = d2 * P + v2) : d1 = d2 ∧ v1 = v2 := by
  rcases Nat.lt_trichotomy d1 d2 with h | h | h
  · have := digit_lt P d1 d2 v1 h1 h; omega
  · subst h; omega
  · have := digit_lt P d2 d1 v2 h2 h; omega

/-- Equal-length bounded digit lists with equal values are equal. -/
theorem beVal_inj (base : Nat) (hb : 0 < base) :
    ∀ l1 l2 : List Nat, l1.length = l2.length → (∀ d ∈ l1, d < base) →
      (∀ d ∈ l2, d < base) → beVal base l1 = beVal base l2 → l1 = l2 := by
  intro l1
  induction l1 with
  | nil =>
    intro l2 hlen _ _ _
    cases l2 with
    | nil => rfl
    | cons e es => simp at hlen
  | cons d ds ih =>
    intro l2 hlen h1 h2 he
    cases l2 with
    | nil => simp at hlen
    | cons e es =>
      simp only [List.length_cons] at hlen
      have hlen' : ds.length = es.length := by omega
      simp only [beVal, hlen'] at he
      have hv1 := beVal_lt base hb ds fun x hx => h1 x (by simp [hx])
      have hv2 := beVal_lt base hb es fun x hx => h2 x (by simp [hx])
      rw [hlen'] at hv1
      obtain ⟨hde, hve⟩ := digit_split (base ^ es.length) d e _ _ hv1 hv2 he
      have := ih es hlen' (fun x hx => h1 x (by simp [hx]))
        (fun x hx => h2 x (by simp [hx])) hve
      rw [hde, this]

/-- Lexicographic byte comparison of equal-length bounded digit lists is
numeric comparison of their big-endian values. -/
theorem bytesCompare_beVal (base : Nat) (hb : 0 < base) :
    ∀ l1 l2 : List Nat, l1.length = l2.length → (∀ d ∈ l1, d < base) →
      (∀ d ∈ l2, d < base) →
      bytesCompare l1 l2 =
        if beVal base l1 < beVal base l2 then -1
        else if beVal base l2 < beVal base l1 then 1 else 0 := by
  intro l1
  induction l1 with
  | nil =>
    intro l2 hlen _ _
    cases l2 with
    | nil => simp [bytesCompare, beVal]
    | cons e es => simp at hlen
  | cons d ds ih =>
    intro l2 hlen h1 h2
    cases l2 with
    | nil => simp at hlen
    | cons e es =>
      simp only [List.length_cons] at hlen
      have hlen' : ds.length = es.length := by omega
      have hv1 := beVal_lt base hb ds fun x hx => h1 x (by simp [hx])
      have hv2 := beVal_lt base hb es fun x hx => h2 x (by simp [hx])
      rw [hlen'] at hv1
      simp only [bytesCompare, beVal, hlen']
      rcases Nat.lt_trichotomy d e with h | h | h
      · have hlt : d * base ^ es.length + beVal base ds
            < e * base ^ es.length + beVal base es := by
          have := digit_lt (base ^ es.length) d e (beVal base ds) hv1 h
          omega
        rw [if_pos h, if_pos hlt]
      · subst h
        have hn : ¬ d < d := lt_irrefl d
        rw [if_neg hn, if_neg hn, ih es hlen' (fun x hx => h1 x (by simp [hx]))
          (fun x hx => h2 x (by simp [hx]))]
        simp only [add_lt_add_iff_left]
      · have hlt : e * base ^ es.length + beVal base es
            < d * base ^ es.length + beVal base ds := by
          have := digit_lt (base ^ es.length) e d (beVal base es) hv2 h
          omega
        have hn1 : ¬ d < e := by omega
        have hn2 : ¬ d * base ^ es.length + beVal base ds
            < e * base ^ es.length + beVal base es := by omega
        rw [if_neg hn1, if_pos h, if_neg hn2, if_pos hlt]

/-- Alphabet lookup preserves lexicographic comparison of 5-bit digit lists. -/
theorem bytesCompare_map_encAt :
    ∀ l1 l2 : List Nat, (∀ d ∈ l1, d < 32) → (∀ d ∈ l2, d < 32) →
      bytesCompare (l1.map encAt) (l2.map encAt) = bytesCompare l1 l2 := by
  intro l1
  induction l1 with
  | nil =>
    intro l2 _ _
    cases l2 <;> simp [bytesCompare]
  | cons d ds ih =>
    intro l2 h1 h2
    cases l2 with
    | nil => simp [bytesCompare]
    | cons e es =>
      have hd : d < 32 := h1 d (by simp)
      have he : e < 32 := h2 e (by simp)
      simp only [List.map_cons, bytesCompare]
      rcases Nat.lt_trichotomy d e with h | h | h
      · rw [if_pos ((encAt_strictMono d hd e he).mpr h), if_pos h]
      · subst h
        rw [if_neg (by omega), if_neg (by omega), if_neg (lt_irrefl _),
          if_neg (lt_irrefl _)]
        exact ih es (fun x hx => h1 x (by simp [hx]))
          (fun x hx => h2 x (by simp [hx]))
      · rw [if_neg, if_pos ((encAt_strictMono e he d hd).mpr h), if_neg (by omega),
          if_pos h]
        intro hc
        exact absurd ((encAt_strictMono d hd e he).mp hc) (by omega)

/-! ### The encode direction as arithmetic on the 80-bit value -/

/-- Composite index pattern of `dst[1]` and `dst[9]`. -/
theorem idx_a_eq (x y : Nat) (hx : x < 256) (hy : y < 256) :
    ((x >>> 6) &&& 31) ||| (((y <<< 2) % 256) &&& 31) = x / 64 + y % 8 * 4 := by
  rw [shr6_and_eq x hx, shl2_and_eq y hy]
  exact lor4_eq (x / 64) (by omega) (y % 8) (by omega)

/-- Composite index pattern of `dst[3]` and `dst[11]`. -/
theorem idx_b_eq (x y : Nat) (hx : x < 256) (hy : y < 256) :
    ((x >>> 4) &&& 31) ||| (((y <<< 4) % 256) &&& 31) = x / 16 + y % 2 * 16 := by
  rw [shr4_and_eq x hx, shl4_and_eq y hy]
  exact lor16_eq (x / 16) (by omega) (y % 2) (by omega)

/-- Composite index pattern of `dst[4]` and `dst[12]`. -/
theorem idx_c_eq (x y : Nat) (hx : x < 256) (hy : y < 256) :
    (x >>> 7) ||| (((y <<< 1) % 256) &&& 31) = x / 128 + y % 16 * 2 := by
  rw [shr7_eq x hx, shl1_and_eq y hy]
  exact lor2_eq (x / 128) (by omega) (y % 16) (by omega)

/-- Composite index pattern of `dst[6]` and `dst[14]`. -/
theorem idx_d_eq (x y : Nat) (hx : x < 256) (hy : y < 256) :
    (x >>> 5) ||| (((y <<< 3) % 256) &&& 31) = x / 32 + y % 4 * 8 := by
  rw [shr5_eq x hx, shl3_and_eq y hy]
  exact lor8_eq (x / 32) (by omega) (y % 4) (by omega)

/-- The sixteen encode indices in division/remainder form, for a valid
(byte-bounded) identifier. -/
theorem encodeIdx_eq (id : ID) (hv : id.Valid) :
    encodeIdx id =
      [id.b0 / 8, id.b1 / 64 + id.b0 % 8 * 4, id.b1 / 2 % 32,
       id.b2 / 16 + id.b1 % 2 * 16, id.b3 / 128 + id.b2 % 16 * 2,
       id.b3 / 4 % 32, id.b4 / 32 + id.b3 % 4 * 8, id.b4 % 32, id.b5 / 8,
       id.b6 / 64 + id.b5 % 8 * 4, id.b6 / 2 % 32, id.b7 / 16 + id.b6 % 2 * 16,
       id.b8 / 128 + id.b7 % 16 * 2, id.b8 / 4 % 32, id.b9 / 32 + id.b8 % 4 * 8,
       id.b9 % 32] := by
  obtain ⟨h0, h1, h2, h3, h4, h5, h6, h7, h8, h9⟩ := hv
  simp only [encodeIdx]
  rw [shr3_eq id.b0 h0, idx_a_eq id.b1 id.b0 h1 h0, shr1_and_eq id.b1 h1,
    idx_b_eq id.b2 id.b1 h2 h1, idx_c_eq id.b3 id.b2 h3 h2,
    shr2_and_eq id.b3 h3, idx_d_eq id.b4 id.b3 h4 h3, and31_eq id.b4 h4,
    shr3_eq id.b5 h5, idx_a_eq id.b6 id.b5 h6 h5, shr1_and_eq id.b6 h6,
    idx_b_eq id.b7 id.b6 h7 h6, idx_c_eq id.b8 id.b7 h8 h7,
    shr2_and_eq id.b8 h8, idx_d_eq id.b9 id.b8 h9 h8, and31_eq id.b9 h9]

/-- All encode indices are 5-bit values. -/
theorem encodeIdx_bounds (id : ID) (hv : id.Valid) :
    ∀ d ∈ encodeIdx id, d < 32 := by
  rw [encodeIdx_eq id hv]
  obtain ⟨h0, h1, h2, h3, h4, h5, h6, h7, h8, h9⟩ := hv
  intro d hd
  simp only [List.mem_cons, List.not_mem_nil, or_false] at hd
  rcases hd with rfl | rfl | rfl | rfl | rfl | rfl | rfl | rfl | rfl | rfl |
    rfl | rfl | rfl | rfl | rfl | rfl <;> omega

/-- The 16 encode indices read in base 32 denote the same 80-bit number as
the 10 identifier bytes read in base 256. -/
theorem beVal_encodeIdx (id : ID) (hv : id.Valid) :
    beVal 32 (encodeIdx id) = beVal 256 (idBytes id) := by
  rw [encodeIdx_eq id hv]
  simp only [idBytes, beVal, List.length_cons, List.length_nil]
  norm_num
  omega

/-! ### The decode direction as arithmetic on the 80-bit value -/

theorem and31_low_eq : ∀ m < 8, ∀ w < 32, (m * 32 + w) &&& 31 = w := by decide

/-- Decode byte pattern of `id[0]` and `id[5]`. -/
theorem dby_a_eq (x y : Nat) (hx : x < 32) (hy : y < 32) :
    ((x <<< 3) % 256) ||| (y >>> 2) = x * 8 + y / 4 := by
  rw [vshl3_eq x hx, vshr2_eq y hy]
  exact lor8b_eq x hx (y / 4) (by omega)

/-- Decode byte pattern of `id[1]` and `id[6]`. -/
theorem dby_b_eq (x y z : Nat) (hx : x < 32) (hy : y < 32) (hz : z < 32) :
    ((x <<< 6) % 256) ||| ((y <<< 1) % 256) ||| (z >>> 4) =
      x % 4 * 64 + y * 2 + z / 16 := by
  rw [vshl6_eq x hx, vshl1_eq y hy, vshr4_eq z hz,
    lor64a_eq (x % 4) (by omega) y hy]
  exact lor64b_eq (x % 4) (by omega) y hy (z / 16) (by omega)

/-- Decode byte pattern of `id[2]` and `id[7]`. -/
theorem dby_c_eq (x y : Nat) (hx : x < 32) (hy : y < 32) :
    ((x <<< 4) % 256) ||| (y >>> 1) = x % 16 * 16 + y / 2 := by
  rw [vshl4_eq x hx, vshr1_eq y hy]
  exact lor16b_eq (x % 16) (by omega) (y / 2) (by omega)

/-- Decode byte pattern of `id[3]` and `id[8]`. -/
theorem dby_d_eq (x y z : Nat) (hx : x < 32) (hy : y < 32) (hz : z < 32) :
    ((x <<< 7) % 256) ||| ((y <<< 2) % 256) ||| (z >>> 3) =
      x % 2 * 128 + y * 4 + z / 8 := by
  rw [vshl7_eq x hx, vshl2_eq y hy, vshr3_eq z hz,
    lor128a_eq (x % 2) (by omega) y hy]
  exact lor128b_eq (x % 2) (by omega) y hy (z / 8) (by omega)

/-- Decode byte pattern of `id[4]` and `id[9]`. -/
theorem dby_e_eq (x y : Nat) (hx : x < 32) (hy : y < 32) :
    ((x <<< 5) % 256) ||| y = x % 8 * 32 + y := by
  rw [vshl5_eq x hx]
  exact lor32_eq (x % 8) (by omega) y hy

/-- Unfolding `decode` on an explicit 16-byte list. -/
theorem decode_eq_16 (c0 c1 c2 c3 c4 c5 c6 c7 c8 c9 c10 c11 c12 c13 c14 c15 : Nat) :
    decode [c0, c1, c2, c3, c4, c5, c6, c7, c8, c9, c10, c11, c12, c13, c14, c15] =
      if encAt ((((dec c14 <<< 5) % 256) ||| dec c15) &&& 31) ≠ c15 then none
      else some
        { b9 := ((dec c14 <<< 5) % 256) ||| dec c15
          b8 := ((dec c12 <<< 7) % 256) ||| ((dec c13 <<< 2) % 256) ||| (dec c14 >>> 3)
          b7 := ((dec c11 <<< 4) % 256) ||| (dec c12 >>> 1)
          b6 := ((dec c9 <<< 6) % 256) ||| ((dec c10 <<< 1) % 256) ||| (dec c11 >>> 4)
          b5 := ((dec c8 <<< 3) % 256) ||| (dec c9 >>> 2)
          b4 := ((dec c6 <<< 5) % 256) ||| dec c7
          b3 := ((dec c4 <<< 7) % 256) ||| ((dec c5 <<< 2) % 256) ||| (dec c6 >>> 3)
          b2 := ((dec c3 <<< 4) % 256) ||| (dec c4 >>> 1)
          b1 := ((dec c1 <<< 6) % 256) ||| ((dec c2 <<< 1) % 256) ||| (dec c3 >>> 4)
          b0 := ((dec c0 <<< 3) % 256) ||| (dec c1 >>> 2) } := rfl

/-- On a 16-byte input whose bytes all decode (all are alphabet bytes), the
self-check succeeds and `decode` returns the bytes in division/remainder
form. -/
theorem decode_valid (c0 c1 c2 c3 c4 c5 c6 c7 c8 c9 c10 c11 c12 c13 c14 c15 : Nat)
    (k0 : dec c0 ≠ 255) (k1 : dec c1 ≠ 255) (k2 : dec c2 ≠ 255)
    (k3 : dec c3 ≠ 255) (k4 : dec c4 ≠ 255) (k5 : dec c5 ≠ 255)
    (k6 : dec c6 ≠ 255) (k7 : dec c7 ≠ 255) (k8 : dec c8 ≠ 255)
    (k9 : dec c9 ≠ 255) (k10 : dec c10 ≠ 255) (k11 : dec c11 ≠ 255)
    (k12 : dec c12 ≠ 255) (k13 : dec c13 ≠ 255) (k14 : dec c14 ≠ 255)
    (k15 : dec c15 ≠ 255) :
    decode [c0, c1, c2, c3, c4, c5, c6, c7, c8, c9, c10, c11, c12, c13, c14, c15] =
      some
        { b0 := dec c0 * 8 + dec c1 / 4
          b1 := dec c1 % 4 * 64 + dec c2 * 2 + dec c3 / 16
          b2 := dec c3 % 16 * 16 + dec c4 / 2
          b3 := dec c4 % 2 * 128 + dec c5 * 4 + dec c6 / 8
          b4 := dec c6 % 8 * 32 + dec c7
          b5 := dec c8 * 8 + dec c9 / 4
          b6 := dec c9 % 4 * 64 + dec c10 * 2 + dec c11 / 16
          b7 := dec c11 % 16 * 16 + dec c12 / 2
          b8 := dec c12 % 2 * 128 + dec c13 * 4 + dec c14 / 8
          b9 := dec c14 % 8 * 32 + dec c15 } := by
  have w0 := (encAt_dec c0 k0).1
  have w1 := (encAt_dec c1 k1).1
  have w2 := (encAt_dec c2 k2).1
  have w3 := (encAt_dec c3 k3).1
  have w4 := (encAt_dec c4 k4).1
  have w5 := (encAt_dec c5 k5).1
  have w6 := (encAt_dec c6 k6).1
  have w7 := (encAt_dec c7 k7).1
  have w8 := (encAt_dec c8 k8).1
  have w9 := (encAt_dec c9 k9).1
  have w10 := (encAt_dec c10 k10).1
  have w11 := (encAt_dec c11 k11).1
  have w12 := (encAt_dec c12 k12).1
  have w13 := (encAt_dec c13 k13).1
  have w14 := (encAt_dec c14 k14).1
  have w15 := (encAt_dec c15 k15).1
  rw [decode_eq_16, dby_e_eq (dec c14) (dec c15) w14 w15,
    and31_low_eq (dec c14 % 8) (by omega) (dec c15) w15]
  rw [if_neg (by simp [(encAt_dec c15 k15).2])]
  rw [dby_a_eq (dec c0) (dec c1) w0 w1, dby_b_eq (dec c1) (dec c2) (dec c3) w1 w2 w3,
    dby_c_eq (dec c3) (dec c4) w3 w4, dby_d_eq (dec c4) (dec c5) (dec c6) w4 w5 w6,
    dby_e_eq (dec c6) (dec c7) w6 w7,
    dby_a_eq (dec c8) (dec c9) w8 w9, dby_b_eq (dec c9) (dec c10) (dec c11) w9 w10 w11,
    dby_c_eq (dec c11) (dec c12) w11 w12,
    dby_d_eq (dec c12) (dec c13) (dec c14) w12 w13 w14]

/-- The ten decoded bytes read in base 256 denote the same 80-bit number as
the sixteen 5-bit values read in base 32. -/
theorem beVal_decodeBytes (v0 v1 v2 v3 v4 v5 v6 v7 v8 v9 v10 v11 v12 v13 v14 v15 : Nat)
    (w0 : v0 < 32) (w1 : v1 < 32) (w2 : v2 < 32) (w3 : v3 < 32) (w4 : v4 < 32)
    (w5 : v5 < 32) (w6 : v6 < 32) (w7 : v7 < 32) (w8 : v8 < 32) (w9 : v9 < 32)
    (w10 : v10 < 32) (w11 : v11 < 32) (w12 : v12 < 32) (w13 : v13 < 32)
    (w14 : v14 < 32) (w15 : v15 < 32) :
    beVal 256
      [v0 * 8 + v1 / 4, v1 % 4 * 64 + v2 * 2 + v3 / 16, v3 % 16 * 16 + v4 / 2,
       v4 % 2 * 128 + v5 * 4 + v6 / 8, v6 % 8 * 32 + v7, v8 * 8 + v9 / 4,
       v9 % 4 * 64 + v10 * 2 + v11 / 16, v11 % 16 * 16 + v12 / 2,
       v12 % 2 * 128 + v13 * 4 + v14 / 8, v14 % 8 * 32 + v15] =
    beVal 32 [v0, v1, v2, v3, v4, v5, v6, v7, v8, v9, v10, v11, v12, v13, v14, v15] := by
  simp only [beVal, List.length_cons, List.length_nil]
  norm_num
  omega

/-- A list of length 16 is an explicit 16-element list. -/
theorem exists_eq_16 (l : List Nat) (h : l.length = 16) :
    ∃ c0 c1 c2 c3 c4 c5 c6 c7 c8 c9 c10 c11 c12 c13 c14 c15 : Nat,
      l = [c0, c1, c2, c3, c4, c5, c6, c7, c8, c9, c10, c11, c12, c13, c14, c15] := by
  rcases l with _ | ⟨c0, l⟩; · simp at h
  rcases l with _ | ⟨c1, l⟩; · simp at h
  rcases l with _ | ⟨c2, l⟩; · simp at h
  rcases l with _ | ⟨c3, l⟩; · simp at h
  rcases l with _ | ⟨c4, l⟩; · simp at h
  rcases l with _ | ⟨c5, l⟩; · simp at h
  rcases l with _ | ⟨c6, l⟩; · simp at h
  rcases l with _ | ⟨c7, l⟩; · simp at h
  rcases l with _ | ⟨c8, l⟩; · simp at h
  rcases l with _ | ⟨c9, l⟩; · simp at h
  rcases l with _ | ⟨c10, l⟩; · simp at h
  rcases l with _ | ⟨c11, l⟩; · simp at h
  rcases l with _ | ⟨c12, l⟩; · simp at h
  rcases l with _ | ⟨c13, l⟩; · simp at h
  rcases l with _ | ⟨c14, l⟩; · simp at h
  rcases l with _ | ⟨c15, l⟩; · simp at h
  rcases l with _ | ⟨c16, l⟩
  · exact ⟨c0, c1, c2, c3, c4, c5, c6, c7, c8, c9, c10, c11, c12, c13, c14, c15, rfl⟩
  · simp at h

/-! ### Claim C1: decode ∘ encode = id -/

/-- C1: For every 10-byte value x, decoding the 16-character string produced
by encoding x returns exactly x (`decode(encode(x)) == x`); in particular the
decode self-check also succeeds on every encoded value. -/
theorem C1_decode_encode_roundtrip (id : ID) (hv : id.Valid) :
    decode (encode id) = some id := by
  obtain ⟨b0, b1, b2, b3, b4, b5, b6, b7, b8, b9⟩ := id
  obtain ⟨g0, g1, g2, g3, g4, g5, g6, g7, g8, g9⟩ := hv
  have h0 : b0 < 256 := g0
  have h1 : b1 < 256 := g1
  have h2 : b2 < 256 := g2
  have h3 : b3 < 256 := g3
  have h4 : b4 < 256 := g4
  have h5 : b5 < 256 := g5
  have h6 : b6 < 256 := g6
  have h7 : b7 < 256 := g7
  have h8 : b8 < 256 := g8
  have h9 : b9 < 256 := g9
  rw [encode, encodeIdx_eq _ ⟨h0, h1, h2, h3, h4, h5, h6, h7, h8, h9⟩]
  dsimp only
  simp only [List.map_cons, List.map_nil]
  have e0 := dec_encAt (b0 / 8) (by omega)
  have e1 := dec_encAt (b1 / 64 + b0 % 8 * 4) (by omega)
  have e2 := dec_encAt (b1 / 2 % 32) (by omega)
  have e3 := dec_encAt (b2 / 16 + b1 % 2 * 16) (by omega)
  have e4 := dec_encAt (b3 / 128 + b2 % 16 * 2) (by omega)
  have e5 := dec_encAt (b3 / 4 % 32) (by omega)
  have e6 := dec_encAt (b4 / 32 + b3 % 4 * 8) (by omega)
  have e7 := dec_encAt (b4 % 32) (by omega)
  have e8 := dec_encAt (b5 / 8) (by omega)
  have e9 := dec_encAt (b6 / 64 + b5 % 8 * 4) (by omega)
  have e10 := dec_encAt (b6 / 2 % 32) (by omega)
  have e11 := dec_encAt (b7 / 16 + b6 % 2 * 16) (by omega)
  have e12 := dec_encAt (b8 / 128 + b7 % 16 * 2) (by omega)
  have e13 := dec_encAt (b8 / 4 % 32) (by omega)
  have e14 := dec_encAt (b9 / 32 + b8 % 4 * 8) (by omega)
  have e15 := dec_encAt (b9 % 32) (by omega)
  have hdec := decode_valid
    (encAt (b0 / 8)) (encAt (b1 / 64 + b0 % 8 * 4)) (encAt (b1 / 2 % 32))
    (encAt (b2 / 16 + b1 % 2 * 16)) (encAt (b3 / 128 + b2 % 16 * 2))
    (encAt (b3 / 4 % 32)) (encAt (b4 / 32 + b3 % 4 * 8)) (encAt (b4 % 32))
    (encAt (b5 / 8)) (encAt (b6 / 64 + b5 % 8 * 4)) (encAt (b6 / 2 % 32))
    (encAt (b7 / 16 + b6 % 2 * 16)) (encAt (b8 / 128 + b7 % 16 * 2))
    (encAt (b8 / 4 % 32)) (encAt (b9 / 32 + b8 % 4 * 8)) (encAt (b9 % 32))
    (by rw [e0]; omega) (by rw [e1]; omega) (by rw [e2]; omega)
    (by rw [e3]; omega) (by rw [e4]; omega) (by rw [e5]; omega)
    (by rw [e6]; omega) (by rw [e7]; omega) (by rw [e8]; omega)
    (by rw [e9]; omega) (by rw [e10]; omega) (by rw [e11]; omega)
    (by rw [e12]; omega) (by rw [e13]; omega) (by rw [e14]; omega)
    (by rw [e15]; omega)
  rw [hdec, e0, e1, e2, e3, e4, e5, e6, e7, e8, e9, e10, e11, e12, e13, e14, e15]
  simp only [Option.some.injEq, ID.mk.injEq]
  omega

/-- Witness for C1 at the identifier from the package documentation example
(`06bq7xhnr03mlz6r`). -/
theorem C1_witness :
    (⟨1, 149, 115, 246, 21, 192, 7, 73, 252, 216⟩ : ID).Valid ∧
      decode (encode ⟨1, 149, 115, 246, 21, 192, 7, 73, 252, 216⟩) =
        some ⟨1, 149, 115, 246, 21, 192, 7, 73, 252, 216⟩ :=
  ⟨by decide, C1_decode_encode_roundtrip _ (by decide)⟩

/-! ### Claims C9, C10, C6, C7 -/

/-- C9: The all-zero identifier value reports is-nil = true and encodes to
the string `"0000000000000000"`; every identifier value other than the
all-zero value reports is-nil = false. -/
theorem C9_nil_sentinel :
    (∀ id : ID, (id.isNil = true) ↔ id = nilID) ∧
      encodeString nilID = "0000000000000000" := by
  constructor
  · intro id
    simp [ID.isNil]
  · decide

/-- C10: For every 16-byte input whose characters all belong to the 32-symbol
alphabet, the decode self-check on the last character always succeeds —
`decode` returns a value, so the error branch after the length and alphabet
checks in `UnmarshalText` is unreachable. -/
theorem C10_selfcheck_unreachable (text : List Nat) (hlen : text.length = 16)
    (hok : ∀ c ∈ text, dec c ≠ 255) : ∃ id : ID, decode text = some id := by
  obtain ⟨c0, c1, c2, c3, c4, c5, c6, c7, c8, c9, c10, c11, c12, c13, c14, c15,
    rfl⟩ := exists_eq_16 text hlen
  refine ⟨_, decode_valid c0 c1 c2 c3 c4 c5 c6 c7 c8 c9 c10 c11 c12 c13 c14 c15
    ?_ ?_ ?_ ?_ ?_ ?_ ?_ ?_ ?_ ?_ ?_ ?_ ?_ ?_ ?_ ?_⟩ <;>
  · apply hok
    simp

/-- Witness for C10 at the all-zeros string `"0000000000000000"`. -/
theorem C10_witness :
    ([48, 48, 48, 48, 48, 48, 48, 48, 48, 48, 48, 48, 48, 48, 48, 48] :
        List Nat).length = 16 ∧
      (∀ c ∈ ([48, 48, 48, 48, 48, 48, 48, 48, 48, 48, 48, 48, 48, 48, 48, 48] :
        List Nat), dec c ≠ 255) ∧
      ∃ id : ID,
        decode [48, 48, 48, 48, 48, 48, 48, 48, 48, 48, 48, 48, 48, 48, 48, 48] =
          some id :=
  ⟨by decide, by decide,
    C10_selfcheck_unreachable _ (by decide) (by decide)⟩

/-- C6: `UnmarshalText` reports the invalid-identifier error exactly when the
input's length is not 16, or some byte lies outside the alphabet, or the
decode self-check fails; on every other input it succeeds. -/
theorem C6_error_iff (id0 : ID) (text : List Nat) :
    (ID.unmarshalText id0 text).2 = true ↔
      text.length ≠ 16 ∨ (∃ c ∈ text, dec c = 255) ∨
        (text.length = 16 ∧ decode text = none) := by
  unfold ID.unmarshalText
  by_cases hl : text.length = 16
  · simp only [hl, ne_eq, not_true_eq_false, if_false, ite_not]
    by_cases ha : text.any (fun c => dec c == 255)
    · simp only [ha, if_false]
      simp only [List.any_eq_true, beq_iff_eq] at ha
      simp [ha]
    · simp only [ha, if_true]
      simp only [List.any_eq_true, beq_iff_eq] at ha
      rcases hd : decode text with _ | id
      · simp [ha, hd]
      · simp [ha, hd]
  · simp [hl]

/-- C7 counterexample: calling `UnmarshalText` on a pre-populated (non-zero)
receiver with a bad-length input reports the error but leaves the receiver's
old non-zero value in place — the value delivered alongside the error is not
the all-zero sentinel. -/
theorem C7_counterexample :
    (ID.unmarshalText ⟨0, 0, 0, 0, 0, 0, 0, 0, 0, 1⟩ []).2 = true ∧
      (ID.unmarshalText ⟨0, 0, 0, 0, 0, 0, 0, 0, 0, 1⟩ []).1 ≠ nilID := by
  decide

/-- C7 amended: `FromString` (which starts from a zero receiver, as decode
callers do) delivers the all-zero sentinel alongside every failure;
`UnmarshalText` itself resets the receiver to the sentinel only on the
self-check path and otherwise leaves the receiver unchanged on failure. -/
theorem C7_fromString_fail_nil (text : List Nat)
    (h : (fromString text).2 = true) : (fromString text).1 = nilID := by
  unfold fromString ID.unmarshalText at *
  by_cases hl : text.length = 16
  · simp only [hl, ne_eq, not_true_eq_false, if_false, ite_not] at *
    by_cases ha : text.any (fun c => dec c == 255)
    · simp [ha]
    · simp only [ha, if_true] at *
      rcases hd : decode text with _ | id
      · simp [hd]
      · simp [hd] at h
  · simp [hl]

/-- Witness for the amended C7 at the too-short input `"06bqer9"`. -/
theorem C7_witness :
    (fromString [48, 54, 98, 113, 101, 114, 57]).2 = true ∧
      (fromString [48, 54, 98, 113, 101, 114, 57]).1 = nilID :=
  ⟨by decide, C7_fromString_fail_nil _ (by decide)⟩

/-! ### Claims C5, C4, C3 -/

/-- Identifier bytes are bounded for valid identifiers. -/
theorem idBytes_bounds (id : ID) (hv : id.Valid) : ∀ d ∈ idBytes id, d < 256 := by
  obtain ⟨h0, h1, h2, h3, h4, h5, h6, h7, h8, h9⟩ := hv
  intro d hd
  simp only [idBytes, List.mem_cons, List.not_mem_nil, or_false] at hd
  rcases hd with rfl | rfl | rfl | rfl | rfl | rfl | rfl | rfl | rfl | rfl <;>
    assumption

/-- Byte-wise comparison of two valid identifiers agrees with lexicographic
comparison of their encoded forms (shared content of C4 and the amended
C3). -/
theorem bytesCompare_encode_eq (a b : ID) (ha : a.Valid) (hb : b.Valid) :
    bytesCompare (idBytes a) (idBytes b) = bytesCompare (encode a) (encode b) := by
  rw [encode, encode,
    bytesCompare_map_encAt _ _ (encodeIdx_bounds a ha) (encodeIdx_bounds b hb),
    bytesCompare_beVal 32 (by omega) _ _ (by simp [encodeIdx])
      (encodeIdx_bounds a ha) (encodeIdx_bounds b hb),
    bytesCompare_beVal 256 (by omega) _ _ (by simp [idBytes])
      (idBytes_bounds a ha) (idBytes_bounds b hb),
    beVal_encodeIdx a ha, beVal_encodeIdx b hb]

/-- C4: For any two (valid) 10-byte values, the byte-wise comparison result
of the raw values equals the lexicographic comparison of their 16-character
encoded forms: encode is strictly monotone in the byte-wise order over all
10 bytes. -/
theorem C4_encode_order_preserving (a b : ID) (ha : a.Valid) (hb : b.Valid) :
    bytesCompare (idBytes a) (idBytes b) = bytesCompare (encode a) (encode b) :=
  bytesCompare_encode_eq a b ha hb

/-- Witness for C4 at two identifiers from the repository's test vectors. -/
theorem C4_witness :
    (⟨0, 220, 106, 207, 171, 255, 0, 0, 0, 0⟩ : ID).Valid ∧
      (⟨0, 162, 72, 52, 205, 146, 0, 0, 104, 142⟩ : ID).Valid ∧
      bytesCompare (idBytes ⟨0, 220, 106, 207, 171, 255, 0, 0, 0, 0⟩)
          (idBytes ⟨0, 162, 72, 52, 205, 146, 0, 0, 104, 142⟩) =
        bytesCompare (encode ⟨0, 220, 106, 207, 171, 255, 0, 0, 0, 0⟩)
          (encode ⟨0, 162, 72, 52, 205, 146, 0, 0, 104, 142⟩) :=
  ⟨by decide, by decide,
    C4_encode_order_preserving _ _ (by decide) (by decide)⟩

/-- Lexicographic comparison of equal-length-prefixed concatenations:
compare the prefixes first, then the suffixes. -/
theorem bytesCompare_append :
    ∀ xs ys zs ws : List Nat, xs.length = ys.length →
      bytesCompare (xs ++ zs) (ys ++ ws) =
        if bytesCompare xs ys = 0 then bytesCompare zs ws
        else bytesCompare xs ys := by
  intro xs
  induction xs with
  | nil =>
    intro ys zs ws h
    cases ys with
    | nil => simp [bytesCompare]
    | cons y ys => simp at h
  | cons x xs ih =>
    intro ys zs ws h
    cases ys with
    | nil => simp at h
    | cons y ys =>
      simp only [List.length_cons] at h
      simp only [List.cons_append, bytesCompare]
      rcases Nat.lt_trichotomy x y with hlt | heq | hgt
      · simp only [if_pos hlt]
        norm_num
      · subst heq
        simp only [if_neg (lt_irrefl x)]
        exact ih ys zs ws (by omega)
      · have hn : ¬ x < y := by omega
        simp only [if_neg hn, if_pos hgt]
        norm_num

/-- The identifier bytes split as the compared 8-byte prefix plus the two
random bytes. -/
theorem idBytes_split (id : ID) :
    idBytes id = first8 id ++ [id.b8, id.b9] := rfl

/-- C3 counterexample: two identifiers that differ only in the random suffix
compare equal (`Compare` reads only the first 8 bytes), yet their encoded
strings differ, so the signs disagree. -/
theorem C3_counterexample :
    ID.compare ⟨0, 0, 0, 0, 0, 0, 0, 0, 0, 1⟩ nilID = 0 ∧
      bytesCompare (encode ⟨0, 0, 0, 0, 0, 0, 0, 0, 0, 1⟩) (encode nilID) = 1 := by
  decide

/-- C3 amended: for identifier pairs that agree on the two random bytes
(`id[8]`, `id[9]`) — in particular whenever only timestamp + sequence
differ — the result of `Compare` equals the lexicographic comparison of the
encoded strings; when the random bytes differ, `Compare` may return 0 while
the encodings differ. -/
theorem C3_compare_encode_agree (a b : ID) (ha : a.Valid) (hb : b.Valid)
    (h8 : a.b8 = b.b8) (h9 : a.b9 = b.b9) :
    ID.compare a b = bytesCompare (encode a) (encode b) := by
  rw [← bytesCompare_encode_eq a b ha hb, idBytes_split a, idBytes_split b,
    bytesCompare_append _ _ _ _ (by simp [first8]), h8, h9]
  have hz : bytesCompare [b.b8, b.b9] [b.b8, b.b9] = 0 := by
    simp [bytesCompare]
  rw [hz, ID.compare]
  by_cases hc : bytesCompare (first8 a) (first8 b) = 0 <;> simp [hc]

/-- Witness for the amended C3 at two identifiers sharing their random
suffix. -/
theorem C3_witness :
    (⟨0, 0, 0, 0, 0, 0, 0, 1, 7, 9⟩ : ID).Valid ∧
      (⟨0, 0, 0, 0, 0, 0, 0, 2, 7, 9⟩ : ID).Valid ∧
      (⟨0, 0, 0, 0, 0, 0, 0, 1, 7, 9⟩ : ID).b8 = (⟨0, 0, 0, 0, 0, 0, 0, 2, 7, 9⟩ : ID).b8 ∧
      (⟨0, 0, 0, 0, 0, 0, 0, 1, 7, 9⟩ : ID).b9 = (⟨0, 0, 0, 0, 0, 0, 0, 2, 7, 9⟩ : ID).b9 ∧
      ID.compare ⟨0, 0, 0, 0, 0, 0, 0, 1, 7, 9⟩ ⟨0, 0, 0, 0, 0, 0, 0, 2, 7, 9⟩ =
        bytesCompare (encode ⟨0, 0, 0, 0, 0, 0, 0, 1, 7, 9⟩)
          (encode ⟨0, 0, 0, 0, 0, 0, 0, 2, 7, 9⟩) :=
  ⟨by decide, by decide, by decide, by decide,
    C3_compare_encode_agree _ _ (by decide) (by decide) (by decide) (by decide)⟩

/-- C5: For every string s that decode accepts (`FromString` returns no
error), re-encoding the decoded 10-byte value reproduces s exactly
(`encode(decode(s)) == s`). -/
theorem C5_encode_decode_roundtrip (text : List Nat)
    (h : (fromString text).2 = false) : encode (fromString text).1 = text := by
  unfold fromString ID.unmarshalText at h ⊢
  by_cases hl : text.length = 16
  · by_cases ha : text.any (fun c => dec c == 255) = true
    · simp [hl, ha] at h
    · have hall : ∀ c ∈ text, dec c ≠ 255 := by
        intro c hc hcc
        exact ha (List.any_eq_true.mpr ⟨c, hc, by simp [hcc]⟩)
      obtain ⟨c0, c1, c2, c3, c4, c5, c6, c7, c8, c9, c10, c11, c12, c13, c14,
        c15, rfl⟩ := exists_eq_16 text hl
      have k0 : dec c0 ≠ 255 := hall c0 (by simp)
      have k1 : dec c1 ≠ 255 := hall c1 (by simp)
      have k2 : dec c2 ≠ 255 := hall c2 (by simp)
      have k3 : dec c3 ≠ 255 := hall c3 (by simp)
      have k4 : dec c4 ≠ 255 := hall c4 (by simp)
      have k5 : dec c5 ≠ 255 := hall c5 (by simp)
      have k6 : dec c6 ≠ 255 := hall c6 (by simp)
      have k7 : dec c7 ≠ 255 := hall c7 (by simp)
      have k8 : dec c8 ≠ 255 := hall c8 (by simp)
      have k9 : dec c9 ≠ 255 := hall c9 (by simp)
      have k10 : dec c10 ≠ 255 := hall c10 (by simp)
      have k11 : dec c11 ≠ 255 := hall c11 (by simp)
      have k12 : dec c12 ≠ 255 := hall c12 (by simp)
      have k13 : dec c13 ≠ 255 := hall c13 (by simp)
      have k14 : dec c14 ≠ 255 := hall c14 (by simp)
      have k15 : dec c15 ≠ 255 := hall c15 (by simp)
      have w0 := (encAt_dec c0 k0).1
      have w1 := (encAt_dec c1 k1).1
      have w2 := (encAt_dec c2 k2).1
      have w3 := (encAt_dec c3 k3).1
      have w4 := (encAt_dec c4 k4).1
      have w5 := (encAt_dec c5 k5).1
      have w6 := (encAt_dec c6 k6).1
      have w7 := (encAt_dec c7 k7).1
      have w8 := (encAt_dec c8 k8).1
      have w9 := (encAt_dec c9 k9).1
      have w10 := (encAt_dec c10 k10).1
      have w11 := (encAt_dec c11 k11).1
      have w12 := (encAt_dec c12 k12).1
      have w13 := (encAt_dec c13 k13).1
      have w14 := (encAt_dec c14 k14).1
      have w15 := (encAt_dec c15 k15).1
      have hdec := decode_valid c0 c1 c2 c3 c4 c5 c6 c7 c8 c9 c10 c11 c12 c13
        c14 c15 k0 k1 k2 k3 k4 k5 k6 k7 k8 k9 k10 k11 k12 k13 k14 k15
      rw [if_neg (by simp), if_neg ha, hdec]
      have hf0 : dec c0 * 8 + dec c1 / 4 < 256 := by omega
      have hf1 : dec c1 % 4 * 64 + dec c2 * 2 + dec c3 / 16 < 256 := by omega
      have hf2 : dec c3 % 16 * 16 + dec c4 / 2 < 256 := by omega
      have hf3 : dec c4 % 2 * 128 + dec c5 * 4 + dec c6 / 8 < 256 := by omega
      have hf4 : dec c6 % 8 * 32 + dec c7 < 256 := by omega
      have hf5 : dec c8 * 8 + dec c9 / 4 < 256 := by omega
      have hf6 : dec c9 % 4 * 64 + dec c10 * 2 + dec c11 / 16 < 256 := by omega
      have hf7 : dec c11 % 16 * 16 + dec c12 / 2 < 256 := by omega
      have hf8 : dec c12 % 2 * 128 + dec c13 * 4 + dec c14 / 8 < 256 := by omega
      have hf9 : dec c14 % 8 * 32 + dec c15 < 256 := by omega
      rw [encode, encodeIdx_eq _
        ⟨hf0, hf1, hf2, hf3, hf4, hf5, hf6, hf7, hf8, hf9⟩]
      dsimp only
      simp only [List.map_cons, List.map_nil]
      have r0 : (dec c0 * 8 + dec c1 / 4) / 8 = dec c0 := by omega
      have r1 : (dec c1 % 4 * 64 + dec c2 * 2 + dec c3 / 16) / 64 +
          (dec c0 * 8 + dec c1 / 4) % 8 * 4 = dec c1 := by omega
      have r2 : (dec c1 % 4 * 64 + dec c2 * 2 + dec c3 / 16) / 2 % 32 = dec c2 := by
        omega
      have r3 : (dec c3 % 16 * 16 + dec c4 / 2) / 16 +
          (dec c1 % 4 * 64 + dec c2 * 2 + dec c3 / 16) % 2 * 16 = dec c3 := by omega
      have r4 : (dec c4 % 2 * 128 + dec c5 * 4 + dec c6 / 8) / 128 +
          (dec c3 % 16 * 16 + dec c4 / 2) % 16 * 2 = dec c4 := by omega
      have r5 : (dec c4 % 2 * 128 + dec c5 * 4 + dec c6 / 8) / 4 % 32 = dec c5 := by
        omega
      have r6 : (dec c6 % 8 * 32 + dec c7) / 32 +
          (dec c4 % 2 * 128 + dec c5 * 4 + dec c6 / 8) % 4 * 8 = dec c6 := by omega
      have r7 : (dec c6 % 8 * 32 + dec c7) % 32 = dec c7 := by omega
      have r8 : (dec c8 * 8 + dec c9 / 4) / 8 = dec c8 := by omega
      have r9 : (dec c9 % 4 * 64 + dec c10 * 2 + dec c11 / 16) / 64 +
          (dec c8 * 8 + dec c9 / 4) % 8 * 4 = dec c9 := by omega
      have r10 : (dec c9 % 4 * 64 + dec c10 * 2 + dec c11 / 16) / 2 % 32 =
          dec c10 := by omega
      have r11 : (dec c11 % 16 * 16 + dec c12 / 2) / 16 +
          (dec c9 % 4 * 64 + dec c10 * 2 + dec c11 / 16) % 2 * 16 = dec c11 := by
        omega
      have r12 : (dec c12 % 2 * 128 + dec c13 * 4 + dec c14 / 8) / 128 +
          (dec c11 % 16 * 16 + dec c12 / 2) % 16 * 2 = dec c12 := by omega
      have r13 : (dec c12 % 2 * 128 + dec c13 * 4 + dec c14 / 8) / 4 % 32 =
          dec c13 := by omega
      have r14 : (dec c14 % 8 * 32 + dec c15) / 32 +
          (dec c12 % 2 * 128 + dec c13 * 4 + dec c14 / 8) % 4 * 8 = dec c14 := by
        omega
      have r15 : (dec c14 % 8 * 32 + dec c15) % 32 = dec c15 := by omega
      rw [r0, r1, r2, r3, r4, r5, r6, r7, r8, r9, r10, r11, r12, r13, r14, r15]
      simp only [List.cons.injEq, and_true]
      exact ⟨(encAt_dec c0 k0).2, (encAt_dec c1 k1).2, (encAt_dec c2 k2).2,
        (encAt_dec c3 k3).2, (encAt_dec c4 k4).2, (encAt_dec c5 k5).2,
        (encAt_dec c6 k6).2, (encAt_dec c7 k7).2, (encAt_dec c8 k8).2,
        (encAt_dec c9 k9).2, (encAt_dec c10 k10).2, (encAt_dec c11 k11).2,
        (encAt_dec c12 k12).2, (encAt_dec c13 k13).2, (encAt_dec c14 k14).2,
        (encAt_dec c15 k15).2⟩
  · simp [hl] at h

/-- Witness for C5 at the documentation example string `06bq7xhnr03mlz6r`. -/
theorem C5_witness :
    (fromString [48, 54, 98, 113, 55, 120, 104, 110, 114, 48, 51, 109, 108,
      122, 54, 114]).2 = false ∧
      encode (fromString [48, 54, 98, 113, 55, 120, 104, 110, 114, 48, 51, 109,
        108, 122, 54, 114]).1 =
        [48, 54, 98, 113, 55, 120, 104, 110, 114, 48, 51, 109, 108, 122, 54, 114] :=
  ⟨by decide, C5_encode_decode_roundtrip _ (by decide)⟩

/-- Each step strictly increases the stored state. -/
theorem getTSStep_state_lt (lastTime nano : Int) :
    lastTime < (getTSStep lastTime nano).2.2 := by
  simp only [getTSStep]
  split <;> dsimp only <;> omega

/-- The returned pair's combined value `milli*4096 + seq` equals the new
stored state. -/
theorem getTSStep_combined (lastTime nano : Int) :
    (getTSStep lastTime nano).1 * 4096 + (getTSStep lastTime nano).2.1 =
      (getTSStep lastTime nano).2.2 := by
  simp only [getTSStep]
  split <;> dsimp only
  omega

/-- Every pair returned by a run exceeds the starting state, and the combined
values of the returned pairs strictly increase along the run. -/
theorem runTS_growth (nanos : List Int) :
    ∀ lastTime : Int,
      (∀ p ∈ runTS lastTime nanos, lastTime < p.1 * 4096 + p.2) ∧
        ((runTS lastTime nanos).map fun p => p.1 * 4096 + p.2).Pairwise (· < ·) := by
  induction nanos with
  | nil => intro lastTime; simp [runTS]
  | cons nano rest ih =>
    intro lastTime
    obtain ⟨ihmem, ihpair⟩ := ih (getTSStep lastTime nano).2.2
    have hcomb := getTSStep_combined lastTime nano
    have hlt := getTSStep_state_lt lastTime nano
    constructor
    · intro p hp
      simp only [runTS, List.mem_cons] at hp
      rcases hp with rfl | hp
      · simp only [hcomb]; exact hlt
      · exact lt_trans hlt (ihmem p hp)
    · simp only [runTS, List.map_cons, List.pairwise_cons]
      refine ⟨?_, ihpair⟩
      intro q hq
      simp only [List.mem_map] at hq
      obtain ⟨p, hp, rfl⟩ := hq
      simp only [hcomb]
      exact ihmem p hp

/-- C2: For every sequence of generator calls (clock readings), each call
returns a pair `(milli, seq)` whose combined 64-bit value
`milli*4096 + seq` is strictly greater than the combined value of every
prior call in the same process (state starts at 0); equivalently, the stored
`lastTime` strictly increases on every step. -/
theorem C2_getTS_strictly_increasing (nanos : List Int) :
    ((runTS 0 nanos).map fun p => p.1 * 4096 + p.2).Pairwise (· < ·) :=
  (runTS_growth nanos 0).2

/-! ### Claim C8: the in-place Sort

Lexicographic comparison is a total preorder, making `ID.compare` one. -/

theorem bytesCompare_cases : ∀ l1 l2 : List Nat,
    bytesCompare l1 l2 = -1 ∨ bytesCompare l1 l2 = 0 ∨ bytesCompare l1 l2 = 1 := by
  intro l1
  induction l1 with
  | nil => intro l2; cases l2 <;> simp [bytesCompare]
  | cons x xs ih =>
    intro l2
    cases l2 with
    | nil => simp [bytesCompare]
    | cons y ys =>
      simp only [bytesCompare]
      rcases Nat.lt_trichotomy x y with h | h | h
      · simp [h]
      · subst h
        simpa [lt_irrefl] using ih ys
      · have hn : ¬ x < y := by omega
        simp [hn, h]

theorem bytesCompare_swap : ∀ l1 l2 : List Nat,
    bytesCompare l2 l1 = -bytesCompare l1 l2 := by
  intro l1
  induction l1 with
  | nil => intro l2; cases l2 <;> simp [bytesCompare]
  | cons x xs ih =>
    intro l2
    cases l2 with
    | nil => simp [bytesCompare]
    | cons y ys =>
      simp only [bytesCompare]
      rcases Nat.lt_trichotomy x y with h | h | h
      · have hn : ¬ y < x := by omega
        simp [h, hn]
      · subst h
        simpa [lt_irrefl] using ih ys
      · have hn : ¬ x < y := by omega
        simp [h, hn]

theorem bytesCompare_zero_iff : ∀ l1 l2 : List Nat, l1.length = l2.length →
    (bytesCompare l1 l2 = 0 ↔ l1 = l2) := by
  intro l1
  induction l1 with
  | nil =>
    intro l2 h
    cases l2 with
    | nil => simp [bytesCompare]
    | cons y ys => simp at h
  | cons x xs ih =>
    intro l2 h
    cases l2 with
    | nil => simp at h
    | cons y ys =>
      simp only [List.length_cons] at h
      simp only [bytesCompare, List.cons.injEq]
      rcases Nat.lt_trichotomy x y with hlt | heq | hgt
      · simp [hlt]
        omega
      · subst heq
        simpa [lt_irrefl] using ih ys (by omega)
      · have hn : ¬ x < y := by omega
        simp [hn, hgt]
        omega

theorem bytesCompare_le_trans : ∀ l1 l2 l3 : List Nat,
    l1.length = l2.length → l2.length = l3.length →
    bytesCompare l1 l2 ≤ 0 → bytesCompare l2 l3 ≤ 0 → bytesCompare l1 l3 ≤ 0 := by
  intro l1
  induction l1 with
  | nil =>
    intro l2 l3 h12 h23 _ _
    cases l2 with
    | nil => cases l3 with
      | nil => simp [bytesCompare]
      | cons z zs => simp at h23
    | cons y ys => simp at h12
  | cons x xs ih =>
    intro l2 l3 h12 h23 hc12 hc23
    cases l2 with
    | nil => simp at h12
    | cons y ys =>
      cases l3 with
      | nil => simp at h23
      | cons z zs =>
        simp only [List.length_cons] at h12 h23
        simp only [bytesCompare] at hc12 hc23 ⊢
        rcases Nat.lt_trichotomy x y with hxy | hxy | hxy
        · rcases Nat.lt_trichotomy y z with hyz | hyz | hyz
          · have : x < z := by omega
            simp [this]
          · subst hyz
            simp [hxy]
          · have h1 : ¬ y < z := by omega
            simp [h1, hyz] at hc23
        · subst hxy
          have hc12a : bytesCompare xs ys ≤ 0 := by simpa [lt_irrefl] using hc12
          rcases Nat.lt_trichotomy x z with hxz | hxz | hxz
          · simp [hxz]
          · subst hxz
            have hc23a : bytesCompare ys zs ≤ 0 := by simpa [lt_irrefl] using hc23
            simpa [lt_irrefl] using ih ys zs (by omega) (by omega) hc12a hc23a
          · have h1 : ¬ x < z := by omega
            simp [h1, hxz] at hc23
        · have h1 : ¬ x < y := by omega
          simp [h1, hxy] at hc12

/-! ID.compare as a total preorder -/

theorem compare_cases (x y : ID) :
    ID.compare x y = -1 ∨ ID.compare x y = 0 ∨ ID.compare x y = 1 :=
  bytesCompare_cases (first8 x) (first8 y)

theorem compare_swap (x y : ID) : ID.compare y x = -ID.compare x y :=
  bytesCompare_swap (first8 x) (first8 y)

theorem compare_zero_iff (x y : ID) :
    ID.compare x y = 0 ↔ first8 x = first8 y :=
  bytesCompare_zero_iff (first8 x) (first8 y) rfl

theorem compare_le_trans (x y z : ID) (h1 : ID.compare x y ≤ 0)
    (h2 : ID.compare y z ≤ 0) : ID.compare x z ≤ 0 :=
  bytesCompare_le_trans (first8 x) (first8 y) (first8 z) rfl rfl h1 h2

theorem compareEq_compare_lt (x z y : ID) (hx : compareEq x y = true)
    (hz : compareEq z y = true) : ¬ ID.compare x z < 0 := by
  simp only [compareEq, beq_iff_eq] at hx hz
  have h1 := (compare_zero_iff x y).mp hx
  have h2 := (compare_zero_iff z y).mp hz
  have : ID.compare x z = 0 := (compare_zero_iff x z).mpr (h1.trans h2.symm)
  omega

/-! bubbleIns properties -/

theorem bubbleIns_perm (x : ID) : ∀ acc : List ID, (bubbleIns x acc).Perm (x :: acc) := by
  intro acc
  induction acc with
  | nil => simp [bubbleIns]
  | cons y rest ih =>
    simp only [bubbleIns]
    by_cases h : ID.compare x y < 0
    · rw [if_pos h]
      exact (ih.cons y).trans (List.Perm.swap x y rest)
    · rw [if_neg h]

theorem bubbleIns_pairwise (x : ID) :
    ∀ acc : List ID, acc.Pairwise (fun p q => ID.compare q p ≤ 0) →
      (bubbleIns x acc).Pairwise (fun p q => ID.compare q p ≤ 0) := by
  intro acc
  induction acc with
  | nil => intro _; simp [bubbleIns]
  | cons y rest ih =>
    intro hp
    rw [List.pairwise_cons] at hp
    obtain ⟨hy, hrest⟩ := hp
    simp only [bubbleIns]
    by_cases h : ID.compare x y < 0
    · rw [if_pos h]
      rw [List.pairwise_cons]
      refine ⟨?_, ih hrest⟩
      intro q hq
      have := (bubbleIns_perm x rest).mem_iff.mp hq
      rcases List.mem_cons.mp this with rfl | hq2
      · omega
      · exact hy q hq2
    · rw [if_neg h]
      rw [List.pairwise_cons]
      have hxy : ID.compare y x ≤ 0 := by
        have := compare_swap x y
        have := compare_cases x y
        omega
      refine ⟨?_, List.pairwise_cons.mpr ⟨hy, hrest⟩⟩
      intro q hq
      rcases List.mem_cons.mp hq with rfl | hq2
      · exact hxy
      · exact compare_le_trans q y x (hy q hq2) hxy

theorem bubbleIns_filter (x y0 : ID) :
    ∀ acc : List ID,
      (bubbleIns x acc).filter (fun z => compareEq z y0) =
        if compareEq x y0 then x :: acc.filter (fun z => compareEq z y0)
        else acc.filter (fun z => compareEq z y0) := by
  intro acc
  induction acc with
  | nil =>
    by_cases h : compareEq x y0 <;> simp [bubbleIns, List.filter, h]
  | cons y rest ih =>
    simp only [bubbleIns]
    by_cases h : ID.compare x y < 0
    · rw [if_pos h]
      by_cases hx : compareEq x y0
      · have hy : compareEq y y0 = false := by
          rcases Bool.eq_false_or_eq_true (compareEq y y0) with ht | hf
          · exact absurd h (compareEq_compare_lt x y y0 hx ht)
          · exact hf
        simp [List.filter_cons, hy, hx, ih]
      · have hx2 : compareEq x y0 = false := by
          rcases Bool.eq_false_or_eq_true (compareEq x y0) with ht | hf
          · exact absurd ht hx
          · exact hf
        simp [List.filter_cons, hx2, ih]
    · rw [if_neg h]
      simp [List.filter_cons]

/-! insertionList: permutation, sortedness, stability -/

theorem foldlBubble_perm :
    ∀ (l acc : List ID),
      (l.foldl (fun a x => bubbleIns x a) acc).Perm (l.reverse ++ acc) := by
  intro l
  induction l with
  | nil => intro acc; simp
  | cons x rest ih =>
    intro acc
    simp only [List.foldl_cons, List.reverse_cons, List.append_assoc,
      List.singleton_append]
    exact (ih (bubbleIns x acc)).trans
      (List.Perm.append_left rest.reverse ((bubbleIns_perm x acc).trans (List.Perm.refl _)))

theorem insertionList_perm (l : List ID) : (insertionList l).Perm l := by
  unfold insertionList
  have h1 := foldlBubble_perm l []
  have h2 : (l.foldl (fun a x => bubbleIns x a) []).reverse.Perm
      (l.foldl (fun a x => bubbleIns x a) []) := List.reverse_perm _
  have h3 : (l.reverse ++ []).Perm l := by simp [List.reverse_perm]
  exact (h2.trans h1).trans h3

theorem foldlBubble_pairwise :
    ∀ (l acc : List ID), acc.Pairwise (fun p q => ID.compare q p ≤ 0) →
      (l.foldl (fun a x => bubbleIns x a) acc).Pairwise
        (fun p q => ID.compare q p ≤ 0) := by
  intro l
  induction l with
  | nil => intro acc h; simpa using h
  | cons x rest ih =>
    intro acc h
    simp only [List.foldl_cons]
    exact ih (bubbleIns x acc) (bubbleIns_pairwise x acc h)

theorem insertionList_sorted (l : List ID) :
    (insertionList l).Pairwise (fun p q => ID.compare p q ≤ 0) := by
  unfold insertionList
  rw [List.pairwise_reverse]
  exact foldlBubble_pairwise l [] (by simp)

theorem foldlBubble_filter (y0 : ID) :
    ∀ (l acc : List ID),
      (l.foldl (fun a x => bubbleIns x a) acc).filter (fun z => compareEq z y0) =
        (l.filter (fun z => compareEq z y0)).reverse ++
          acc.filter (fun z => compareEq z y0) := by
  intro l
  induction l with
  | nil => intro acc; simp
  | cons x rest ih =>
    intro acc
    simp only [List.foldl_cons, List.filter_cons]
    rw [ih (bubbleIns x acc), bubbleIns_filter x y0 acc]
    by_cases hx : compareEq x y0
    · rw [if_pos hx, if_pos hx]
      simp
    · have hx2 : compareEq x y0 = false := by
        rcases Bool.eq_false_or_eq_true (compareEq x y0) with ht | hf
        · exact absurd ht hx
        · exact hf
      rw [if_neg hx, hx2]
      simp

theorem insertionList_stable (l : List ID) (y0 : ID) :
    (insertionList l).filter (fun z => compareEq z y0) =
      l.filter (fun z => compareEq z y0) := by
  unfold insertionList
  rw [List.filter_reverse, foldlBubble_filter y0 l []]
  simp

/-! sortIDs on small lists is the insertion sort -/

theorem sortIDs_small (l : List ID) (h : l.length ≤ 12) :
    sortIDs l = insertionList l := by
  unfold sortIDs
  by_cases h1 : l.length ≤ 1
  · rw [if_pos h1]
    rcases l with _ | ⟨x, _ | ⟨y, rest⟩⟩
    · rfl
    · rfl
    · simp at h1
  · rw [if_neg h1]
    have hn : 2 ≤ l.length := by omega
    have hpos : 0 < (l.length + 2) * (l.length + 2) :=
      Nat.mul_pos (by omega) (by omega)
    obtain ⟨f, hf⟩ : ∃ f, (l.length + 2) * (l.length + 2) = f + 1 :=
      ⟨(l.length + 2) * (l.length + 2) - 1, by omega⟩
    rw [hf]
    unfold pdqsortGo pdqLoop
    rw [if_pos (by simpa using h)]
    unfold insertionSortSeg segExtract segReplace
    simp [Array.toList_toArray, List.drop_length]


/-- C8 counterexample: on a 13-identifier input — just past the delegated
sort's insertion-sort threshold of 12 — five identifiers with equal
timestamp+sequence keys but distinct random tags do not retain their original
relative order after `Sort`: the quicksort partitioning is not stable. -/
theorem C8_counterexample :
    ¬ ((sortIDs [tagged 5 0, tagged 5 1, tagged 5 2, tagged 5 3, tagged 5 4,
          tagged 1 0, tagged 9 0, tagged 2 0, tagged 8 0, tagged 3 0,
          tagged 7 0, tagged 4 0, tagged 6 0]).filter
            (fun z => compareEq z (tagged 5 0)) =
        ([tagged 5 0, tagged 5 1, tagged 5 2, tagged 5 3, tagged 5 4,
          tagged 1 0, tagged 9 0, tagged 2 0, tagged 8 0, tagged 3 0,
          tagged 7 0, tagged 4 0, tagged 6 0]).filter
            (fun z => compareEq z (tagged 5 0))) := by
  decide

/-- C8 amended: for every list of at most 12 identifiers — the range where
the delegated standard-library sort runs its (stable) insertion-sort path —
the in-place Sort is a stable comparison sort over the compare primitive:
the output is a permutation of the input, it is nondecreasing under compare,
and identifiers that compare equal retain their original relative order (the
subsequence of every equal-compare class is preserved).  For longer inputs
stability fails (see the counterexample). -/
theorem C8_sort_small_stable (l : List ID) (h : l.length ≤ 12) :
    (sortIDs l).Perm l ∧
      (sortIDs l).Pairwise (fun p q => ID.compare p q ≤ 0) ∧
      ∀ y : ID, (sortIDs l).filter (fun z => compareEq z y) =
        l.filter (fun z => compareEq z y) := by
  rw [sortIDs_small l h]
  exact ⟨insertionList_perm l, insertionList_sorted l,
    fun y => insertionList_stable l y⟩

/-- Witness for the amended C8 at the repository's six-identifier sort test
vector. -/
theorem C8_witness :
    ([⟨0, 220, 106, 207, 171, 255, 0, 0, 0, 0⟩,
      ⟨255, 255, 255, 255, 255, 255, 255, 255, 255, 255⟩,
      ⟨0, 0, 0, 0, 0, 0, 0, 0, 0, 0⟩,
      ⟨0, 162, 72, 52, 205, 146, 0, 0, 104, 142⟩,
      ⟨1, 149, 105, 41, 22, 248, 0, 0, 0, 0⟩,
      ⟨1, 126, 19, 39, 120, 201, 0, 0, 27, 238⟩] : List ID).length ≤ 12 ∧
      ((sortIDs [⟨0, 220, 106, 207, 171, 255, 0, 0, 0, 0⟩,
          ⟨255, 255, 255, 255, 255, 255, 255, 255, 255, 255⟩,
          ⟨0, 0, 0, 0, 0, 0, 0, 0, 0, 0⟩,
          ⟨0, 162, 72, 52, 205, 146, 0, 0, 104, 142⟩,
          ⟨1, 149, 105, 41, 22, 248, 0, 0, 0, 0⟩,
          ⟨1, 126, 19, 39, 120, 201, 0, 0, 27, 238⟩]).Perm
          [⟨0, 220, 106, 207, 171, 255, 0, 0, 0, 0⟩,
          ⟨255, 255, 255, 255, 255, 255, 255, 255, 255, 255⟩,
          ⟨0, 0, 0, 0, 0, 0, 0, 0, 0, 0⟩,
          ⟨0, 162, 72, 52, 205, 146, 0, 0, 104, 142⟩,
          ⟨1, 149, 105, 41, 22, 248, 0, 0, 0, 0⟩,
          ⟨1, 126, 19, 39, 120, 201, 0, 0, 27, 238⟩] ∧
        (sortIDs [⟨0, 220, 106, 207, 171, 255, 0, 0, 0, 0⟩,
          ⟨255, 255, 255, 255, 255, 255, 255, 255, 255, 255⟩,
          ⟨0, 0, 0, 0, 0, 0, 0, 0, 0, 0⟩,
          ⟨0, 162, 72, 52, 205, 146, 0, 0, 104, 142⟩,
          ⟨1, 149, 105, 41, 22, 248, 0, 0, 0, 0⟩,
          ⟨1, 126, 19, 39, 120, 201, 0, 0, 27, 238⟩]).Pairwise
            (fun p q => ID.compare p q ≤ 0) ∧
        ∀ y : ID,
          (sortIDs [⟨0, 220, 106, 207, 171, 255, 0, 0, 0, 0⟩,
            ⟨255, 255, 255, 255, 255, 255, 255, 255, 255, 255⟩,
            ⟨0, 0, 0, 0, 0, 0, 0, 0, 0, 0⟩,
            ⟨0, 162, 72, 52, 205, 146, 0, 0, 104, 142⟩,
            ⟨1, 149, 105, 41, 22, 248, 0, 0, 0, 0⟩,
            ⟨1, 126, 19, 39, 120, 201, 0, 0, 27, 238⟩]).filter
              (fun z => compareEq z y) =
            ([⟨0, 220, 106, 207, 171, 255, 0, 0, 0, 0⟩,
              ⟨255, 255, 255, 255, 255, 255, 255, 255, 255, 255⟩,
              ⟨0, 0, 0, 0, 0, 0, 0, 0, 0, 0⟩,
              ⟨0, 162, 72, 52, 205, 146, 0, 0, 104, 142⟩,
              ⟨1, 149, 105, 41, 22, 248, 0, 0, 0, 0⟩,
              ⟨1, 126, 19, 39, 120, 201, 0, 0, 27, 238⟩] : List ID).filter
              (fun z => compareEq z y)) :=
  ⟨by decide, C8_sort_small_stable _ (by decide)⟩
